/-
Verification development for the agent orchestration engine:
a shallow embedding of the backend's message bus (A2AServer), agent
lifecycle (BaseAgent), ReAct executor, workflow engine and the
dependency-scheduling HTTP layer, with theorems about their behaviour.
-/
import Mathlib

namespace GameAgents

/-! ## JavaScript value model

JavaScript runtime values as they flow through the engine: `jundefined` is
`undefined`; objects and arrays are modelled structurally.  Only the
constructors actually produced by the embedded code are included. -/

mutual
inductive JSVal where
  | jundefined : JSVal
  | jbool : Bool → JSVal
  | jnum : Int → JSVal
  | jstr : String → JSVal
  | jarr : JSList → JSVal
  | jobj : JSFields → JSVal
deriving DecidableEq

inductive JSList where
  | nil : JSList
  | cons : JSVal → JSList → JSList
deriving DecidableEq

inductive JSFields where
  | fnil : JSFields
  | fcons : String → JSVal → JSFields → JSFields
deriving DecidableEq
end

/-- Build an object value from an association list. -/
def JSFields.ofList : List (String × JSVal) → JSFields
  | [] => .fnil
  | (k, v) :: rest => .fcons k v (JSFields.ofList rest)

/-- An object value written as an association-list literal. -/
def jobjL (fs : List (String × JSVal)) : JSVal := .jobj (JSFields.ofList fs)

/-- Field lookup in an object's field list (first match wins, as in a
JavaScript object literal read). -/
def JSFields.lookup : JSFields → String → Option JSVal
  | .fnil, _ => none
  | .fcons k v rest, key => if k == key then some v else JSFields.lookup rest key

/-- Numeric indexing in an array value. -/
def JSList.get? : JSList → Nat → Option JSVal
  | .nil, _ => none
  | .cons v _, 0 => some v
  | .cons _ rest, n + 1 => JSList.get? rest n

def JSList.ofList : List JSVal → JSList
  | [] => .nil
  | v :: rest => .cons v (JSList.ofList rest)

/-- JavaScript truthiness: `undefined`, `false`, `0` and `""` are falsy;
objects and arrays (even empty) are truthy. -/
def jsTruthy : JSVal → Bool
  | .jundefined => false
  | .jbool b => b
  | .jnum n => n != 0
  | .jstr s => s ≠ ""
  | .jarr _ => true
  | .jobj _ => true

mutual
/-- JavaScript string coercion of a value, as performed when a value is
returned from a `String.replace` callback. -/
def jsValToString : JSVal → String
  | .jundefined => "undefined"
  | .jbool b => if b then "true" else "false"
  | .jnum n => toString n
  | .jstr s => s
  | .jarr xs => jsListToString xs
  | .jobj _ => "[object Object]"

/-- Array-to-string coercion: elements joined by commas. -/
def jsListToString : JSList → String
  | .nil => ""
  | .cons v .nil => jsValToString v
  | .cons v rest => jsValToString v ++ "," ++ jsListToString rest
end

/-- JavaScript `a || b`. -/
def jsOr (a b : JSVal) : JSVal := if jsTruthy a then a else b

/-- Digits-only text read as a number (array indexing). -/
def charsToNat? (cs : List Char) : Option Nat :=
  if cs.isEmpty then none
  else if cs.all (fun c => c.isDigit) then
    some (cs.foldl (fun acc c => acc * 10 + (c.toNat - 48)) 0)
  else none

/-- Property access `current?.[key]`: objects look fields up, arrays use a
numeric index, anything else (and a missing field) yields `undefined`. -/
def jsIndex : JSVal → String → JSVal
  | .jobj fields, key => (fields.lookup key).getD .jundefined
  | .jarr xs, key => match charsToNat? key.data with
      | some i => (xs.get? i).getD .jundefined
      | none => .jundefined
  | _, _ => .jundefined

/-- `s.startsWith(pre)` over the character lists. -/
def strStartsWith (s pre : String) : Bool := pre.data.isPrefixOf s.data

/-- `s.substring(n)` over the character lists. -/
def strDropChars (s : String) (n : Nat) : String := String.mk (s.data.drop n)

/-- `text.split(sep)` over the character lists (`"".split(sep)` is
`[""]`). -/
def splitCharsOn (sep : Char) : List Char → List (List Char)
  | [] => [[]]
  | c :: rest =>
      let r := splitCharsOn sep rest
      if c = sep then [] :: r
      else match r with
        | [] => [[c]]
        | hd :: tl => (c :: hd) :: tl

/-! ## A2A message model (`a2a/message-types.ts`) -/

inductive MessageType where
  | agent_start | agent_complete | agent_error | agent_progress
  | user_message | system_message | artifact_approval
deriving DecidableEq

/-- The closed set of agent identities (`AgentType` enum). -/
inductive AgentType where
  | planner | artist | developer
deriving DecidableEq

/-- The runtime string of an `AgentType` enum value. -/
def AgentType.str : AgentType → String
  | .planner => "planner"
  | .artist => "artist"
  | .developer => "developer"

/-- `A2AMessage.from`: an agent, the user, or the system. -/
inductive MsgFrom where
  | agent : AgentType → MsgFrom
  | user | system
deriving DecidableEq

/-- `A2AMessage.to`: a specific agent or the broadcast destination. -/
inductive MsgTo where
  | agent : AgentType → MsgTo
  | all
deriving DecidableEq

/-- `A2AMessage.payload`: each field is optional in the source interface. -/
structure Payload where
  content : Option String := none
  data : JSVal := .jundefined
  artifactPath : Option String := none
  error : Option String := none
deriving DecidableEq

/-- An A2A message.  `mfrom`/`mto` stand for the source's `from`/`to`
(`from` is a reserved word in Lean). -/
structure A2AMessage where
  id : String
  type : MessageType
  mfrom : MsgFrom
  mto : MsgTo
  timestamp : Nat
  payload : Payload
deriving DecidableEq

/-! ## Message bus model (`a2a/a2a-server.ts`, class `A2AServer`)

The server state keeps the connected transport clients, the
agent-identity registrations, and the per-agent FIFO buffers.  `ws.send`
calls are recorded in the `delivered` log (clientId, message) in send
order; process-local `messageHandlers` notifications are recorded in
`handled`. -/

structure A2AServerState where
  clients : List String
  agentClients : AgentType → Option String
  messageQueue : AgentType → List A2AMessage
  delivered : List (String × A2AMessage)
  handled : List A2AMessage

/-- A client whose transport connection is open (`clients.has(clientId)`)
and that is bound to the identity. -/
def A2AServerState.isConnected (s : A2AServerState) (a : AgentType) : Bool :=
  match s.agentClients a with
  | some cid => s.clients.contains cid
  | none => false

/-- `A2AServer.deliverMessage`: send to the registered, connected client,
otherwise append to the identity's FIFO buffer. -/
def deliverMessage (a : AgentType) (m : A2AMessage) (s : A2AServerState) : A2AServerState :=
  match s.agentClients a with
  | some cid =>
      if s.clients.contains cid then
        { s with delivered := s.delivered ++ [(cid, m)] }
      else
        { s with messageQueue := fun a2 =>
            if a2 = a then (s.messageQueue a) ++ [m] else s.messageQueue a2 }
  | none =>
      { s with messageQueue := fun a2 =>
          if a2 = a then (s.messageQueue a) ++ [m] else s.messageQueue a2 }

/-- `A2AServer.routeMessage`: broadcast to every connected client when
`to == "all"`, otherwise deliver to the named agent; in both cases all
process-local handlers observe the message. -/
def routeMessage (m : A2AMessage) (s : A2AServerState) : A2AServerState :=
  let s1 :=
    match m.mto with
    | .all => { s with delivered := s.delivered ++ s.clients.map (fun cid => (cid, m)) }
    | .agent a => deliverMessage a m s
  { s1 with handled := s1.handled ++ [m] }

/-- `A2AServer.sendQueuedMessages`: flush the identity's buffer through
`deliverMessage` in enqueue order, then clear the buffer. -/
def sendQueuedMessages (a : AgentType) (s : A2AServerState) : A2AServerState :=
  let q := s.messageQueue a
  if q.isEmpty then s
  else
    let s1 := q.foldl (fun st m => deliverMessage a m st) s
    { s1 with messageQueue := fun a2 => if a2 = a then [] else s1.messageQueue a2 }

/-- The `register` branch of `A2AServer.handleMessage`: bind the identity
to the client, then flush its buffer. -/
def handleRegister (cid : String) (a : AgentType) (s : A2AServerState) : A2AServerState :=
  let s1 := { s with agentClients := fun a2 => if a2 = a then some cid else s.agentClients a2 }
  sendQueuedMessages a s1

/-- The `connection` event of the websocket server: a new transport client
is added to `clients`. -/
def connectClient (cid : String) (s : A2AServerState) : A2AServerState :=
  { s with clients := s.clients ++ [cid] }

/-- Publishing a whole sequence of messages (each one `routeMessage`d). -/
def publishAll (ms : List A2AMessage) (s : A2AServerState) : A2AServerState :=
  ms.foldl (fun st m => routeMessage m st) s

lemma publishAll_cons (m : A2AMessage) (rest : List A2AMessage) (s : A2AServerState) :
    publishAll (m :: rest) s = publishAll rest (routeMessage m s) := rfl

lemma deliverMessage_connected (a : AgentType) (m : A2AMessage) (s : A2AServerState)
    (cid : String) (h1 : s.agentClients a = some cid) (h2 : s.clients.contains cid = true) :
    deliverMessage a m s = { s with delivered := s.delivered ++ [(cid, m)] } := by
  have hmem : cid ∈ s.clients := by simpa using h2
  simp [deliverMessage, h1, hmem]

lemma deliverMessage_disconnected (a : AgentType) (m : A2AMessage) (s : A2AServerState)
    (h : s.isConnected a = false) :
    deliverMessage a m s = { s with messageQueue := fun a2 =>
      if a2 = a then (s.messageQueue a) ++ [m] else s.messageQueue a2 } := by
  unfold A2AServerState.isConnected at h
  unfold deliverMessage
  cases hag : s.agentClients a with
  | none => rfl
  | some cid =>
      rw [hag] at h
      have h2 : s.clients.contains cid = false := h
      have h3 : cid ∉ s.clients := by simpa using h2
      simp [h3]

lemma foldl_deliver_connected (a : AgentType) (cid : String) :
    ∀ (q : List A2AMessage) (s : A2AServerState),
      s.agentClients a = some cid → s.clients.contains cid = true →
      q.foldl (fun st m => deliverMessage a m st) s =
        { s with delivered := s.delivered ++ q.map (fun m => (cid, m)) } := by
  intro q
  induction q with
  | nil => intro s h1 h2; simp
  | cons m rest ih =>
      intro s h1 h2
      simp only [List.foldl_cons, List.map_cons]
      rw [deliverMessage_connected a m s cid h1 h2]
      rw [ih { s with delivered := s.delivered ++ [(cid, m)] } h1 h2]
      simp

lemma sendQueued_connected (a : AgentType) (cid : String) (s : A2AServerState)
    (h1 : s.agentClients a = some cid) (h2 : s.clients.contains cid = true) :
    (sendQueuedMessages a s).delivered
        = s.delivered ++ (s.messageQueue a).map (fun m => (cid, m)) ∧
    (sendQueuedMessages a s).messageQueue a = [] := by
  unfold sendQueuedMessages
  by_cases hq : (s.messageQueue a).isEmpty
  · rw [List.isEmpty_iff] at hq
    simp [hq]
  · simp only [hq, Bool.false_eq_true, if_false]
    rw [foldl_deliver_connected a cid _ s h1 h2]
    simp

lemma publishAll_disconnected (a : AgentType) :
    ∀ (ms : List A2AMessage) (s : A2AServerState),
      s.isConnected a = false → (∀ m ∈ ms, m.mto = MsgTo.agent a) →
      (publishAll ms s).clients = s.clients ∧
      (publishAll ms s).agentClients = s.agentClients ∧
      (publishAll ms s).delivered = s.delivered ∧
      (publishAll ms s).messageQueue a = s.messageQueue a ++ ms := by
  intro ms
  induction ms with
  | nil => intro s h1 h2; simp [publishAll]
  | cons m rest ih =>
      intro s h1 h2
      have hm : m.mto = MsgTo.agent a := h2 m (by simp)
      have hroute : routeMessage m s = { s with
          messageQueue := fun a2 =>
            if a2 = a then (s.messageQueue a) ++ [m] else s.messageQueue a2,
          handled := s.handled ++ [m] } := by
        unfold routeMessage
        rw [hm]
        dsimp only
        rw [deliverMessage_disconnected a m s h1]
      have h1' : (routeMessage m s).isConnected a = false := by
        rw [hroute]
        unfold A2AServerState.isConnected at h1 ⊢
        exact h1
      obtain ⟨c1, c2, c3, c4⟩ := ih (routeMessage m s) h1' (fun m' hm' => h2 m' (by simp [hm']))
      rw [publishAll_cons]
      refine ⟨?_, ?_, ?_, ?_⟩
      · rw [c1, hroute]
      · rw [c2, hroute]
      · rw [c3, hroute]
      · rw [c4, hroute]
        simp

lemma handleRegister_connected (c : String) (a : AgentType) (s : A2AServerState)
    (hc : s.clients.contains c = true) :
    (handleRegister c a s).delivered
        = s.delivered ++ (s.messageQueue a).map (fun m => (c, m)) ∧
    (handleRegister c a s).messageQueue a = [] := by
  unfold handleRegister
  exact sendQueued_connected a c
    { s with agentClients := fun a2 => if a2 = a then some c else s.agentClients a2 }
    (by simp) hc

/-- **C1.** Messages published to a disconnected identity are appended to
that identity's FIFO buffer in publish order; when a client connects and
registers that identity, the buffered messages are delivered to it,
exactly those, in original publish order, exactly once, and the buffer is
left empty. -/
theorem bus_buffers_and_delivers_fifo (s0 : A2AServerState) (a : AgentType)
    (ms : List A2AMessage) (c : String)
    (hdisc : s0.isConnected a = false)
    (hq0 : s0.messageQueue a = [])
    (hto : ∀ m ∈ ms, m.mto = MsgTo.agent a) :
    (publishAll ms s0).messageQueue a = ms ∧
    (handleRegister c a (connectClient c (publishAll ms s0))).delivered
      = s0.delivered ++ ms.map (fun m => (c, m)) ∧
    (handleRegister c a (connectClient c (publishAll ms s0))).messageQueue a = [] := by
  obtain ⟨c1, c2, c3, c4⟩ := publishAll_disconnected a ms s0 hdisc hto
  have hq1 : (publishAll ms s0).messageQueue a = ms := by rw [c4, hq0]; simp
  have hcc : ((connectClient c (publishAll ms s0)).clients).contains c = true := by
    unfold connectClient
    simp
  obtain ⟨d1, d2⟩ := handleRegister_connected c a (connectClient c (publishAll ms s0)) hcc
  refine ⟨hq1, ?_, d2⟩
  rw [d1]
  have hdel : (connectClient c (publishAll ms s0)).delivered = s0.delivered := c3
  have hqc : (connectClient c (publishAll ms s0)).messageQueue a = ms := hq1
  rw [hdel, hqc]

/-- Empty bus state used by the witnesses. -/
def busEx : A2AServerState where
  clients := []
  agentClients := fun _ => none
  messageQueue := fun _ => []
  delivered := []
  handled := []

def m1ex : A2AMessage where
  id := "m1"
  type := .user_message
  mfrom := .user
  mto := .agent .planner
  timestamp := 1
  payload := { content := some "hello" }

def m2ex : A2AMessage where
  id := "m2"
  type := .agent_complete
  mfrom := .agent .artist
  mto := .agent .planner
  timestamp := 2
  payload := { artifactPath := some "gdd/a.md" }

/-- Witness for **C1** at a concrete bus state and two messages. -/
theorem bus_buffers_and_delivers_fifo_w :
    (publishAll [m1ex, m2ex] busEx).messageQueue .planner = [m1ex, m2ex] ∧
    (handleRegister "c1" .planner (connectClient "c1" (publishAll [m1ex, m2ex] busEx))).delivered
      = busEx.delivered ++ [m1ex, m2ex].map (fun m => ("c1", m)) ∧
    (handleRegister "c1" .planner (connectClient "c1" (publishAll [m1ex, m2ex] busEx))).messageQueue .planner = [] :=
  bus_buffers_and_delivers_fifo busEx .planner [m1ex, m2ex] "c1" rfl rfl (by decide)

/-! ## Workflow data model (`workflow/workflow-types.ts`)

The type definitions live in `workflow-types.ts`; the field shapes used
here are the ones exercised by `workflow-engine.ts` and `base-agent.ts`:
node configs carry the kind-specific fields read by `executeNode`, and
`next` is either a single node id or an array used for branching. -/

inductive WorkflowNodeType where
  | tool_call | data_access | react | condition | loop
deriving DecidableEq

/-- `WorkflowNode.next`: a single id (`string`) or a branch array. -/
inductive NextSpec where
  | one : String → NextSpec
  | branch : List String → NextSpec
deriving DecidableEq

structure NodeConfig where
  toolName : Option String := none
  toolParams : List (String × JSVal) := []
  dataSource : Option String := none
  reactPrompt : Option String := none
  condition : Option String := none
  maxIterations : Option Nat := none
deriving DecidableEq

structure WorkflowNode where
  id : String
  type : WorkflowNodeType
  name : String := ""
  config : NodeConfig := {}
  next : Option NextSpec := none
deriving DecidableEq

structure Workflow where
  id : String := ""
  name : String := ""
  nodes : List WorkflowNode := []
  startNode : String := ""
  goalCondition : String := ""
deriving DecidableEq

/-- A `ReActStep` as produced by the ReAct executor. -/
structure ReActStep where
  thought : String
  action : String
  actionInput : JSVal
  observation : String
deriving DecidableEq

/-- Entries of `WorkflowExecutionContext.history`: the workflow engine
pushes `{node, result}` records, the agent loop pushes ReAct steps. -/
inductive HistoryEntry where
  | nodeResult : String → JSVal → HistoryEntry
  | reactStep : ReActStep → HistoryEntry
deriving DecidableEq

/-- `WorkflowExecutionContext` as constructed in `workflow-engine.ts` and
`base-agent.ts`. -/
structure WorkflowExecutionContext where
  vars : List (String × JSVal) := []
  iteration : Nat := 0
  history : List HistoryEntry := []
  userMessages : List String := []
  previousArtifacts : List (String × JSVal) := []
deriving DecidableEq

/-- Read `variables.<name>` (missing ⇒ `undefined`). -/
def lookupVar (vars : List (String × JSVal)) (name : String) : JSVal :=
  ((vars.find? (fun p => p.1 == name)).map (fun p => p.2)).getD .jundefined

/-! ## Agent lifecycle model (`agents/base-agent.ts`, class `BaseAgent`) -/

inductive AgentStatus where
  | IDLE | RUNNING | PAUSED | COMPLETED | ERROR
  | WAITING_FOR_USER | WAITING_FOR_APPROVAL
deriving DecidableEq

inductive ExecMode where
  | automatic | interactive
deriving DecidableEq

def ExecMode.str : ExecMode → String
  | .automatic => "automatic"
  | .interactive => "interactive"

/-- The slice of `AgentConfig` (`types/agent-config.ts`) read by
`BaseAgent`. -/
structure AgentConfig where
  scenario : String
  prompt : Option String := none
  suggestedQuestions : Option String := none
deriving DecidableEq

/-- The truthiness check `this.agentConfig && this.agentConfig.scenario`
(an empty scenario string is falsy). -/
def hasScenario : Option AgentConfig → Bool
  | some c => c.scenario ≠ ""
  | none => false

/-- A message as handed to `sendA2AMessage`, i.e. before the transport
adds the generated `id` and `timestamp` (external nondeterminism omitted
from the model). -/
structure EmittedMessage where
  type : MessageType
  mfrom : MsgFrom
  mto : MsgTo
  payload : Payload
deriving DecidableEq

/-- The mutable fields of one `BaseAgent` instance.  `startCount` is
observation-only instrumentation counting the transitions into `RUNNING`
performed by `start`; it corresponds to no source field and influences no
behaviour. -/
structure BaseAgentState where
  agentType : AgentType
  status : AgentStatus := .IDLE
  userMessages : List String := []
  executionContext : WorkflowExecutionContext := {}
  goalAchieved : Bool := false
  currentWorkflow : Option Workflow := none
  executionMode : ExecMode := .automatic
  currentQuestion : Option String := none
  artifactForApproval : JSVal := .jundefined
  agentConfig : Option AgentConfig := none
  askedForInitialInput : Bool := false
  startCount : Nat := 0
deriving DecidableEq

/-- Modelled from the host language: the source evaluates goal and branch
conditions with JavaScript `eval`.  The model interprets the two boolean
literal programs, which are the only condition expressions appearing in
the specification's scenarios; every other program is conservatively
treated as the thrown-exception path, which all callers catch. -/
def jsEvalBool (s : String) : Option Bool :=
  if s = "true" then some true
  else if s = "false" then some false
  else none

/-- `BaseAgent.checkGoalAchievement`: a workflow's goal condition is
`eval`uated (exceptions ⇒ `false`); otherwise goal achievement reduces to
`variables.output` being truthy (the configured scenario is only advisory
and short-circuits to `true` once output exists). -/
def checkGoalAchievement (s : BaseAgentState) : Bool :=
  match s.currentWorkflow with
  | some wf =>
      if wf.goalCondition ≠ "" then
        match jsEvalBool wf.goalCondition with
        | some b => b
        | none => false
      else checkGoalDefault s
  | none => checkGoalDefault s
where
  checkGoalDefault (s : BaseAgentState) : Bool :=
    let output := lookupVar s.executionContext.vars "output"
    if !jsTruthy output then false
    else if hasScenario s.agentConfig then true
    else jsTruthy output

/-- `BaseAgent.stop`: force `idle` and mark the goal trivially
satisfied. -/
def stopAgent (s : BaseAgentState) : BaseAgentState :=
  { s with status := .IDLE, goalAchieved := true }

/-- `BaseAgent.start` up to the invocation of `await this.run()`: the
running-guard, the configuration load (`readConfig` is the value the
persistence store returns for this agent) and scenario check, and the
transition to `RUNNING` with the `agent_start` announcement.  The
subsequent `run()` is modelled by `runAux` below. -/
def startAgent (readConfig : Option AgentConfig) (initialData : List (String × JSVal))
    (mode : Option ExecMode) (s : BaseAgentState) :
    Except String (BaseAgentState × List EmittedMessage) :=
  if s.status = .RUNNING then .ok (s, [])
  else
    let s1 := { s with agentConfig := readConfig }
    if hasScenario readConfig = false then
      .error ("Agent " ++ s.agentType.str ++
        " must have a scenario configured to define completion criteria")
    else
      let m := mode.getD .automatic
      let s2 := { s1 with
        executionMode := m,
        status := .RUNNING,
        goalAchieved := false,
        executionContext := { s1.executionContext with vars := initialData },
        startCount := s1.startCount + 1 }
      .ok (s2, [{ type := .agent_start, mfrom := .agent s.agentType, mto := .all,
                  payload := { content := some (s.agentType.str ++ " agent started in "
                    ++ m.str ++ " mode") } }])

/-- The `while` condition of `BaseAgent.run`'s main loop. -/
def runGuard (s : BaseAgentState) : Bool :=
  !s.goalAchieved && !(s.status == .ERROR)

/-- The code after `BaseAgent.run`'s main loop: when the goal flag is set
the agent becomes `COMPLETED`, the subclass hook `processArtifact`
(injected as `procA`, acting on the execution context) runs, and an
`agent_complete` message carrying the artifact and `artifactPath` is
announced. -/
def runEpilogue (procA : JSVal → WorkflowExecutionContext → WorkflowExecutionContext)
    (s : BaseAgentState) : BaseAgentState × List EmittedMessage :=
  if s.goalAchieved then
    let artifact := lookupVar s.executionContext.vars "output"
    let ctx2 := procA artifact s.executionContext
    let s2 := { s with status := .COMPLETED, executionContext := ctx2 }
    (s2, [{ type := .agent_complete, mfrom := .agent s.agentType, mto := .all,
            payload := { content := some (s.agentType.str ++ " agent completed"),
                         data := artifact,
                         artifactPath :=
                           match lookupVar ctx2.vars "artifactPath" with
                           | .jstr p => some p
                           | _ => none } }])
  else (s, [])

/-- One pass of `BaseAgent.run`'s `while` body, entered with the guard
true.  `execPass` abstracts the single execution step — `executeWorkflow`
when a workflow is attached, otherwise `executeReActLoop` — returning the
updated execution context (with `variables.output` set on success) or the
thrown error; both engines are modelled concretely elsewhere in this
file. -/
def runIteration (execPass : WorkflowExecutionContext → Except String WorkflowExecutionContext)
    (s : BaseAgentState) : Except String (BaseAgentState × List EmittedMessage) :=
  if s.status = .WAITING_FOR_USER then .ok (s, [])
  else if s.status = .WAITING_FOR_APPROVAL then .ok (s, [])
  else if s.status ≠ .RUNNING then .ok (s, [])
  else if s.executionMode = .interactive ∧ !s.askedForInitialInput ∧ s.userMessages = [] then
    let q := "Please provide your initial requirements to begin."
    let s2 := { s with
      askedForInitialInput := true
      currentQuestion := some q
      status := .WAITING_FOR_USER }
    .ok (s2, [{ type := .agent_progress, mfrom := .agent s.agentType, mto := .all,
                payload := { content := some q } }])
  else
    let ctx1 := { s.executionContext with
      iteration := s.executionContext.iteration + 1,
      userMessages := s.userMessages }
    let s1 := { s with executionContext := ctx1, userMessages := [] }
    match execPass ctx1 with
    | .error e => .error e
    | .ok ctx2 =>
        let s2 := { s1 with executionContext := ctx2 }
        let goal := checkGoalAchievement s2
        let s3 := { s2 with goalAchieved := goal }
        if s3.executionMode = .interactive ∧ goal then
          let s4 := { s3 with
            artifactForApproval := lookupVar ctx2.vars "output",
            status := .WAITING_FOR_APPROVAL }
          .ok (s4, [{ type := .agent_progress, mfrom := .agent s.agentType, mto := .all,
                      payload := { content := some "Task completed. Please review the artifact." } }])
        else
          .ok (s3, [{ type := .agent_progress, mfrom := .agent s.agentType, mto := .all,
                      payload := { content := some ("Iteration "
                        ++ toString s3.executionContext.iteration ++ " completed") } }])

/-- `BaseAgent.run`'s main loop with fuel: `none` when the fuel runs out
with the loop still live; otherwise the epilogue result, or the error
thrown out of the loop (which `start` catches). -/
def runAux (execPass : WorkflowExecutionContext → Except String WorkflowExecutionContext)
    (procA : JSVal → WorkflowExecutionContext → WorkflowExecutionContext) :
    Nat → BaseAgentState → Option (Except String (BaseAgentState × List EmittedMessage))
  | 0, s => if runGuard s then none else some (.ok (runEpilogue procA s))
  | fuel + 1, s =>
      if runGuard s then
        match runIteration execPass s with
        | .error e => some (.error e)
        | .ok (s1, msgs) =>
            match runAux execPass procA fuel s1 with
            | none => none
            | some (.error e) => some (.error e)
            | some (.ok (s2, msgs2)) => some (.ok (s2, msgs ++ msgs2))
      else some (.ok (runEpilogue procA s))

/-- The message types emitted by a finished run. -/
def runMsgs (r : Option (Except String (BaseAgentState × List EmittedMessage))) :
    List MessageType :=
  match r with
  | some (.ok (_, msgs)) => msgs.map (fun m => m.type)
  | _ => []

/-- The agent status resulting from a `start` call, when it succeeded. -/
def startStatus (r : Except String (BaseAgentState × List EmittedMessage)) :
    Option AgentStatus :=
  match r with
  | .ok (s, _) => some s.status
  | .error _ => none

/-- The start counter resulting from a `start` call, when it succeeded. -/
def startCountOf (r : Except String (BaseAgentState × List EmittedMessage)) :
    Option Nat :=
  match r with
  | .ok (s, _) => some s.startCount
  | .error _ => none

/-- A concrete agent configuration with a non-empty scenario. -/
def cfgEx : AgentConfig := { scenario := "produce a game design document" }

/-- A running planner agent. -/
def runningAgentEx : BaseAgentState :=
  { agentType := .planner, status := .RUNNING, agentConfig := some cfgEx, startCount := 1 }

/-- An agent in the terminal `completed` state. -/
def doneAgentEx : BaseAgentState :=
  { agentType := .planner, status := .COMPLETED, agentConfig := some cfgEx, startCount := 1 }

/-- An agent in the terminal `error` state. -/
def errAgentEx : BaseAgentState :=
  { agentType := .artist, status := .ERROR, agentConfig := some cfgEx, startCount := 1 }

/-- A no-op execution pass (never reached in the stop scenario). -/
def passEx : WorkflowExecutionContext → Except String WorkflowExecutionContext :=
  fun ctx => .ok ctx

/-- A no-op `processArtifact` hook. -/
def procEx : JSVal → WorkflowExecutionContext → WorkflowExecutionContext :=
  fun _ ctx => ctx

/-- **C3** counterexample: after `stop()` the status is `idle` and the
loop guard is false, yet finishing the run does emit an `agent_complete`
message — the epilogue sees `goalAchieved = true` (set by `stop` itself)
and runs the completion path, contradicting the claim that the loop ends
without emitting completion. -/
theorem stop_then_run_emits_complete_cx :
    (stopAgent runningAgentEx).status = AgentStatus.IDLE ∧
    runGuard (stopAgent runningAgentEx) = false ∧
    runMsgs (runAux passEx procEx 5 (stopAgent runningAgentEx))
      = [MessageType.agent_complete] :=
  ⟨rfl, rfl, rfl⟩

/-- **C3** (amended). `stop()` forces the status to `idle` and marks the
goal trivially satisfied, so the main loop performs no further
iterations; the loop's epilogue, however, then observes the goal flag,
transitions the agent to `completed` and emits exactly one
`agent_complete` message. -/
theorem stop_forces_idle_loop_ends_then_completes (s : BaseAgentState)
    (execPass : WorkflowExecutionContext → Except String WorkflowExecutionContext)
    (procA : JSVal → WorkflowExecutionContext → WorkflowExecutionContext)
    (fuel : Nat) :
    (stopAgent s).status = .IDLE ∧
    (stopAgent s).goalAchieved = true ∧
    runGuard (stopAgent s) = false ∧
    runAux execPass procA fuel (stopAgent s) = some (.ok (runEpilogue procA (stopAgent s))) ∧
    (runEpilogue procA (stopAgent s)).1.status = .COMPLETED ∧
    (runEpilogue procA (stopAgent s)).2.map (fun m => m.type) = [.agent_complete] := by
  have hg : runGuard (stopAgent s) = false := by simp [runGuard, stopAgent]
  refine ⟨rfl, rfl, hg, ?_, ?_, ?_⟩
  · cases fuel <;> simp [runAux, hg]
  · simp [runEpilogue, stopAgent]
  · simp [runEpilogue, stopAgent]

/-- **C4** counterexample: `start` only guards against the `running`
status, so an agent in a terminal state is restarted in place — with a
valid configuration, `start` on a `completed` (resp. `error`) agent
succeeds and transitions it back to `running`. -/
theorem start_restarts_terminal_cx :
    startStatus (startAgent (some cfgEx) [] none doneAgentEx) = some AgentStatus.RUNNING ∧
    startStatus (startAgent (some cfgEx) [] none errAgentEx) = some AgentStatus.RUNNING :=
  ⟨rfl, rfl⟩

/-- **C4** (amended). `start` is a no-op when the agent is already
`running`; otherwise it fails with the configuration error when no
non-empty scenario is configured; in every other case — including the
terminal `completed` and `error` states, which the running-guard does not
cover — it transitions the agent to `running`. -/
theorem start_guard_and_transition (s : BaseAgentState) (cfg : Option AgentConfig)
    (initialData : List (String × JSVal)) (mode : Option ExecMode) :
    (s.status = .RUNNING → startAgent cfg initialData mode s = .ok (s, [])) ∧
    (s.status ≠ .RUNNING → hasScenario cfg = false →
      startAgent cfg initialData mode s = .error ("Agent " ++ s.agentType.str ++
        " must have a scenario configured to define completion criteria")) ∧
    (s.status ≠ .RUNNING → hasScenario cfg = true →
      startStatus (startAgent cfg initialData mode s) = some .RUNNING ∧
      startCountOf (startAgent cfg initialData mode s) = some (s.startCount + 1)) := by
  refine ⟨?_, ?_, ?_⟩
  · intro h; simp [startAgent, h]
  · intro h hc; simp [startAgent, h, hc]
  · intro h hc
    constructor
    · simp [startAgent, h, hc, startStatus]
    · simp [startAgent, h, hc, startCountOf]

/-- Witness for **C4** (amended) at a concrete terminal agent. -/
theorem start_guard_and_transition_w :
    startStatus (startAgent (some cfgEx) [] none doneAgentEx) = some AgentStatus.RUNNING ∧
    startCountOf (startAgent (some cfgEx) [] none doneAgentEx) = some 2 :=
  (start_guard_and_transition doneAgentEx (some cfgEx) [] none).2.2 (by decide) (by decide)

/-! ## ReAct executor model (`workflow/react-executor.ts`)

The language model (`llmClient.chat`), the host JSON parser
(`JSON.parse`) and serializer (`JSON.stringify`) are external
capabilities; `chat` and `JSON.parse` are passed in as oracles, the
serializer is modelled below (string escaping and the host
pretty-printing indentation are not reproduced — no claim inspects
serialized text). -/

inductive LLMRole where
  | system | user | assistant
deriving DecidableEq

structure LLMMessage where
  role : LLMRole
  content : String
deriving DecidableEq

mutual
/-- Modelled `JSON.stringify` over the value grammar of `JSVal`. -/
def jsonStringify : JSVal → String
  | .jundefined => "undefined"
  | .jbool b => if b then "true" else "false"
  | .jnum n => toString n
  | .jstr s => "\x22" ++ s ++ "\x22"
  | .jarr xs => "[" ++ jsonStringifyList xs ++ "]"
  | .jobj fs => "\x7b" ++ jsonStringifyFields fs ++ "\x7d"

def jsonStringifyList : JSList → String
  | .nil => ""
  | .cons v .nil => jsonStringify v
  | .cons v rest => jsonStringify v ++ "," ++ jsonStringifyList rest

def jsonStringifyFields : JSFields → String
  | .fnil => ""
  | .fcons k v .fnil => "\x22" ++ k ++ "\x22:" ++ jsonStringify v
  | .fcons k v rest => "\x22" ++ k ++ "\x22:" ++ jsonStringify v ++ "," ++ jsonStringifyFields rest
end

def historyEntryToJSVal : HistoryEntry → JSVal
  | .nodeResult n r => jobjL [("node", .jstr n), ("result", r)]
  | .reactStep st => jobjL [("thought", .jstr st.thought), ("action", .jstr st.action),
      ("actionInput", st.actionInput), ("observation", .jstr st.observation)]

/-- The execution context viewed as the JavaScript object that string
resolution and serialization walk over. -/
def ctxToJSVal (ctx : WorkflowExecutionContext) : JSVal :=
  jobjL [("variables", jobjL ctx.vars),
         ("iteration", .jnum ctx.iteration),
         ("history", .jarr (JSList.ofList (ctx.history.map historyEntryToJSVal))),
         ("userMessages", .jarr (JSList.ofList (ctx.userMessages.map JSVal.jstr))),
         ("previousArtifacts", jobjL ctx.previousArtifacts)]

/-- JavaScript whitespace matched by `\s` on the ASCII texts involved. -/
def isJsWS (c : Char) : Bool :=
  c = ' ' || c = '\t' || c = '\n' || c = '\r'

/-- The text after the first occurrence of `pat` (a regex starting with
this literal label matches at its first occurrence). -/
def dropAfterFirst (pat : List Char) : List Char → Option (List Char)
  | [] => none
  | c :: rest =>
      if pat.isPrefixOf (c :: rest) then some ((c :: rest).drop pat.length)
      else dropAfterFirst pat rest

/-- The lazy capture `(.+?)` with lookahead alternatives: the shortest
non-empty prefix of `body` after which one of the stop markers or the end
of the text follows. -/
def captureLazy (stops : List (List Char)) : List Char → List Char
  | [] => []
  | c :: rest =>
      if stops.any (fun p => !p.isEmpty && p.isPrefixOf rest) then [c]
      else c :: captureLazy stops rest

/-- JavaScript `String.trim()` on ASCII text. -/
def trimChars (xs : List Char) : List Char :=
  ((xs.dropWhile isJsWS).reverse.dropWhile isJsWS).reverse

/-- `response.match(/Label:\s*(.+?)(?=stopA|stopB|$)/s)?.[1].trim()`:
locate the label, skip whitespace greedily, capture lazily up to a stop
marker or the end of the text, and trim.  When everything after the label
is whitespace the regex backtracks into the whitespace and captures part
of it, which trims to the empty string; when nothing at all follows the
label there is no match.  The `$` anchor's matching before a final
newline is absorbed by the trim. -/
def matchSection (label : String) (stops : List String) (response : String) : Option String :=
  match dropAfterFirst label.data response.data with
  | none => none
  | some rest =>
      if rest.isEmpty then none
      else
        let body := rest.dropWhile isJsWS
        if body.isEmpty then some ""
        else some (String.mk (trimChars (captureLazy (stops.map String.data) body)))

structure ReActParsed where
  thought : String
  action : String
  actionInput : JSVal
deriving DecidableEq

/-- `ReActExecutor.parseReActResponse`.  `jsonParse` abstracts the host
`JSON.parse` applied to the trimmed `Action Input` text (`some` = parsed
value, `none` = exception, in which case the raw string is kept). -/
def parseReActResponse (jsonParse : String → Option JSVal) (response : String) : ReActParsed :=
  let thought := (matchSection "Thought:" ["\nAction:", "\n\n"] response).getD ""
  let action := (matchSection "Action:" ["\nAction Input:", "\n\n"] response).getD "FINISH"
  let actionInput :=
    match matchSection "Action Input:" [] response with
    | none => jobjL []
    | some inputStr =>
        match jsonParse inputStr with
        | some v => v
        | none => .jstr inputStr
  { thought := thought, action := action, actionInput := actionInput }

/-- A tool as registered with the executor (`Tool` in
`react-executor.ts`).  `execute` returns the observation value and the
(possibly mutated) execution context, or a thrown error. -/
structure MTool where
  name : String
  description : String := ""
  parameters : List (String × JSVal) := []
  execute : JSVal → WorkflowExecutionContext → Except String (JSVal × WorkflowExecutionContext)

/-- `this.tools.get(name)`: `Map.set` overwrites, so the last registration
of a name wins. -/
def lookupTool (ts : List MTool) (n : String) : Option MTool :=
  ts.reverse.find? (fun t => t.name == n)

/-- `Array.from(this.tools.keys())`: key order is first insertion, each
key once. -/
def toolKeys : List MTool → List String
  | [] => []
  | t :: rest => t.name :: (toolKeys rest).filter (fun k => k ≠ t.name)

/-- The observation synthesized for an unknown tool name. -/
def missingToolObs (ts : List MTool) (action : String) : String :=
  "Error: Tool \x22" ++ action ++ "\x22 not found. Available tools: "
    ++ String.intercalate ", " (toolKeys ts)

/-- The follow-up user message carrying an observation. -/
def obsPrompt (obs : String) : String :=
  "Observation: " ++ obs ++ "\n\nContinue with your reasoning."

/-- `ReActExecutor.getToolsDescription`. -/
def getToolsDescription (ts : List MTool) : String :=
  String.intercalate "\n"
    (((toolKeys ts).filterMap (lookupTool ts)).map (fun t =>
      "- " ++ t.name ++ ": " ++ t.description ++ "\n  Parameters: "
        ++ jsonStringify (jobjL t.parameters)))

/-- `ReActExecutor.buildReActPrompt`. -/
def buildReActPrompt (task toolsDescription contextStr : String) : String :=
  "You are an AI agent using the ReAct (Reasoning and Acting) framework to solve tasks.\n\nTask: "
  ++ task ++ "\n\nContext: " ++ contextStr ++ "\n\nAvailable Tools:\n" ++ toolsDescription
  ++ "\n\nYou must respond in the following format for each step:\n\nThought: [Your reasoning about what to do next]\nAction: [The tool name to use, or \x22FINISH\x22 when the task is complete]\nAction Input: [The input for the tool as a JSON object, or the final result if Action is FINISH]\n\nWhen you have completed the task, use:\nAction: FINISH\nAction Input: [Your final result]\n\nBegin!"

/-- The result record of `ReActExecutor.execute`. -/
structure ReActResult where
  success : Bool
  result : Option JSVal := none
  steps : List ReActStep
deriving DecidableEq

/-- The `for` loop of `ReActExecutor.execute`, with the remaining
iteration count as fuel.  `llm` abstracts `llmClient.chat` (reply text or
thrown error); a thrown error anywhere in the round is caught and
returned as an unsuccessful result.  The progress callback only forwards
steps to observers and carries no state. -/
def executeAux (llm : List LLMMessage → Except String String)
    (jsonParse : String → Option JSVal) (ts : List MTool) :
    Nat → List LLMMessage → List ReActStep → WorkflowExecutionContext →
    ReActResult × WorkflowExecutionContext
  | 0, _, steps, ctx =>
      ({ success := false, result := some (.jstr "Max iterations reached without completion"),
         steps := steps }, ctx)
  | n + 1, msgs, steps, ctx =>
      match llm msgs with
      | .error e => ({ success := false, result := some (.jstr e), steps := steps }, ctx)
      | .ok content =>
          let parsed := parseReActResponse jsonParse content
          if parsed.action = "FINISH" then
            let finalStep : ReActStep := {
              thought := parsed.thought
              action := parsed.action
              actionInput := parsed.actionInput
              observation := "Task completed" }
            ({ success := true
               result := some parsed.actionInput
               steps := steps ++ [finalStep] }, ctx)
          else
            match lookupTool ts parsed.action with
            | none =>
                let observation := missingToolObs ts parsed.action
                let step : ReActStep := {
                  thought := parsed.thought
                  action := parsed.action
                  actionInput := parsed.actionInput
                  observation := observation }
                executeAux llm jsonParse ts n
                  (msgs ++ [{ role := .assistant, content := content },
                            { role := .user, content := obsPrompt observation }])
                  (steps ++ [step]) ctx
            | some tool =>
                match tool.execute parsed.actionInput ctx with
                | .error e => ({ success := false, result := some (.jstr e), steps := steps }, ctx)
                | .ok (obsVal, ctx2) =>
                    let obsStr := jsonStringify obsVal
                    let step : ReActStep := {
                      thought := parsed.thought
                      action := parsed.action
                      actionInput := parsed.actionInput
                      observation := obsStr }
                    executeAux llm jsonParse ts n
                      (msgs ++ [{ role := .assistant, content := content },
                                { role := .user, content := obsPrompt obsStr }])
                      (steps ++ [step]) ctx2

/-- `ReActExecutor.maxIterations` initial value. -/
def defaultMaxIterations : Nat := 10

/-- `ReActExecutor.execute`: push the optional system prompt (skipped when
falsy) and the initial ReAct prompt, then run the loop. -/
def reactExecute (llm : List LLMMessage → Except String String)
    (jsonParse : String → Option JSVal) (ts : List MTool) (maxIterations : Nat)
    (task : String) (ctx : WorkflowExecutionContext) (systemPrompt : Option String) :
    ReActResult × WorkflowExecutionContext :=
  let msgs0 : List LLMMessage :=
    match systemPrompt with
    | some sp => if sp = "" then [] else [{ role := .system, content := sp }]
    | none => []
  let prompt0 := buildReActPrompt task (getToolsDescription ts) (jsonStringify (ctxToJSVal ctx))
  executeAux llm jsonParse ts maxIterations
    (msgs0 ++ [{ role := .user, content := prompt0 }]) [] ctx

lemma lookupTool_mem {ts : List MTool} {a : String} {t : MTool}
    (h : lookupTool ts a = some t) : t ∈ ts := by
  unfold lookupTool at h
  exact List.mem_reverse.mp (List.mem_of_find?_eq_some h)

lemma executeAux_no_finish (llm : List LLMMessage → Except String String)
    (jsonParse : String → Option JSVal) (ts : List MTool)
    (hllm : ∀ msgs, ∃ content, llm msgs = .ok content ∧
      (parseReActResponse jsonParse content).action ≠ "FINISH")
    (htools : ∀ t ∈ ts, ∀ inp ctx, ∃ r, t.execute inp ctx = .ok r) :
    ∀ (n : Nat) (msgs : List LLMMessage) (steps : List ReActStep)
      (ctx : WorkflowExecutionContext),
      (executeAux llm jsonParse ts n msgs steps ctx).1.success = false ∧
      (executeAux llm jsonParse ts n msgs steps ctx).1.result
        = some (.jstr "Max iterations reached without completion") ∧
      (executeAux llm jsonParse ts n msgs steps ctx).1.steps.length = steps.length + n := by
  intro n
  induction n with
  | zero => intro msgs steps ctx; exact ⟨rfl, rfl, by simp [executeAux]⟩
  | succ k ih =>
      intro msgs steps ctx
      obtain ⟨content, hc, hnf⟩ := hllm msgs
      cases hl : lookupTool ts (parseReActResponse jsonParse content).action with
      | none =>
          have hstep : executeAux llm jsonParse ts (k + 1) msgs steps ctx
              = executeAux llm jsonParse ts k
                  (msgs ++ [{ role := .assistant, content := content },
                    { role := .user, content := obsPrompt (missingToolObs ts
                      (parseReActResponse jsonParse content).action) }])
                  (steps ++ [{
                    thought := (parseReActResponse jsonParse content).thought
                    action := (parseReActResponse jsonParse content).action
                    actionInput := (parseReActResponse jsonParse content).actionInput
                    observation := missingToolObs ts
                      (parseReActResponse jsonParse content).action }]) ctx := by
            simp [executeAux, hc, hnf, hl]
          rw [hstep]
          obtain ⟨i1, i2, i3⟩ := ih _ _ ctx
          refine ⟨i1, i2, ?_⟩
          rw [i3]
          simp
          omega
      | some tool =>
          obtain ⟨r, hr⟩ := htools tool (lookupTool_mem hl)
            (parseReActResponse jsonParse content).actionInput ctx
          obtain ⟨obsVal, ctx2⟩ := r
          have hstep : executeAux llm jsonParse ts (k + 1) msgs steps ctx
              = executeAux llm jsonParse ts k
                  (msgs ++ [{ role := .assistant, content := content },
                    { role := .user, content := obsPrompt (jsonStringify obsVal) }])
                  (steps ++ [{
                    thought := (parseReActResponse jsonParse content).thought
                    action := (parseReActResponse jsonParse content).action
                    actionInput := (parseReActResponse jsonParse content).actionInput
                    observation := jsonStringify obsVal }]) ctx2 := by
            simp [executeAux, hc, hnf, hl, hr]
          rw [hstep]
          obtain ⟨i1, i2, i3⟩ := ih _ _ ctx2
          refine ⟨i1, i2, ?_⟩
          rw [i3]
          simp
          omega

/-- **C7.** When the language model never produces a `FINISH` action (and
the collaborating tools do not throw), the ReAct loop runs exactly
`maxIterations` rounds — whose default is 10 — and then returns a
non-fatal failure: `success = false` with the accumulated steps (one per
round) and the max-iterations message, rather than raising an error. -/
theorem react_bounded_iterations (llm : List LLMMessage → Except String String)
    (jsonParse : String → Option JSVal) (ts : List MTool)
    (hllm : ∀ msgs, ∃ content, llm msgs = .ok content ∧
      (parseReActResponse jsonParse content).action ≠ "FINISH")
    (htools : ∀ t ∈ ts, ∀ inp ctx, ∃ r, t.execute inp ctx = .ok r)
    (task : String) (ctx : WorkflowExecutionContext) (sysPrompt : Option String) :
    (reactExecute llm jsonParse ts defaultMaxIterations task ctx sysPrompt).1.success = false ∧
    (reactExecute llm jsonParse ts defaultMaxIterations task ctx sysPrompt).1.result
      = some (.jstr "Max iterations reached without completion") ∧
    (reactExecute llm jsonParse ts defaultMaxIterations task ctx sysPrompt).1.steps.length
      = defaultMaxIterations ∧
    defaultMaxIterations = 10 := by
  obtain ⟨h1, h2, h3⟩ := executeAux_no_finish llm jsonParse ts hllm htools
    defaultMaxIterations
    ((match sysPrompt with
      | some sp => if sp = "" then [] else [{ role := .system, content := sp }]
      | none => []) ++
      [{ role := .user, content := buildReActPrompt task (getToolsDescription ts)
          (jsonStringify (ctxToJSVal ctx)) }]) [] ctx
  exact ⟨h1, h2, by simpa using h3, rfl⟩

/-- A scripted model reply that names a non-existent tool. -/
def cW : String := "Thought: t\nAction: nothing\nAction Input: 1"

/-- A model oracle that always replies `cW`. -/
def llmW : List LLMMessage → Except String String := fun _ => .ok cW

/-- A JSON-parse oracle that always fails (raw strings kept). -/
def jpW : String → Option JSVal := fun _ => none

/-- The parse of `cW`. -/
def pW : ReActParsed := parseReActResponse jpW cW

/-- Witness for **C7** with a model that never finishes and no tools. -/
theorem react_bounded_iterations_w :
    (reactExecute llmW jpW [] defaultMaxIterations "do the task" {} none).1.success = false ∧
    (reactExecute llmW jpW [] defaultMaxIterations "do the task" {} none).1.result
      = some (.jstr "Max iterations reached without completion") ∧
    (reactExecute llmW jpW [] defaultMaxIterations "do the task" {} none).1.steps.length
      = defaultMaxIterations ∧
    defaultMaxIterations = 10 :=
  react_bounded_iterations llmW jpW []
    (fun _ => ⟨cW, rfl, by decide⟩)
    (fun t ht => absurd ht (List.not_mem_nil t))
    "do the task" {} none

/-- **C8.** Response-parsing and unknown-tool handling in the ReAct loop:
(1) a model reply in which the `Action:` label does not occur parses to
action `FINISH`; (2) a round whose parse is `FINISH` stops the loop
successfully, returning the parsed action input and the steps extended by
the terminal step; (3) a round whose parsed action names a tool absent
from the registry synthesizes an observation describing the missing tool,
appends the step, extends the conversation, and continues with the next
round — consuming one iteration without failing the run. -/
theorem react_missing_action_and_missing_tool :
    (∀ (jsonParse : String → Option JSVal) (response : String),
      dropAfterFirst ("Action:".data) response.data = none →
      (parseReActResponse jsonParse response).action = "FINISH") ∧
    (∀ (llm : List LLMMessage → Except String String) (jsonParse : String → Option JSVal)
       (ts : List MTool) (n : Nat) (msgs : List LLMMessage) (steps : List ReActStep)
       (ctx : WorkflowExecutionContext) (content : String),
      llm msgs = .ok content →
      (parseReActResponse jsonParse content).action = "FINISH" →
      executeAux llm jsonParse ts (n + 1) msgs steps ctx =
        ({ success := true
           result := some (parseReActResponse jsonParse content).actionInput
           steps := steps ++ [{
             thought := (parseReActResponse jsonParse content).thought
             action := (parseReActResponse jsonParse content).action
             actionInput := (parseReActResponse jsonParse content).actionInput
             observation := "Task completed" }] }, ctx)) ∧
    (∀ (llm : List LLMMessage → Except String String) (jsonParse : String → Option JSVal)
       (ts : List MTool) (n : Nat) (msgs : List LLMMessage) (steps : List ReActStep)
       (ctx : WorkflowExecutionContext) (content : String),
      llm msgs = .ok content →
      (parseReActResponse jsonParse content).action ≠ "FINISH" →
      lookupTool ts (parseReActResponse jsonParse content).action = none →
      executeAux llm jsonParse ts (n + 1) msgs steps ctx =
        executeAux llm jsonParse ts n
          (msgs ++ [{ role := .assistant, content := content },
            { role := .user, content := obsPrompt (missingToolObs ts
              (parseReActResponse jsonParse content).action) }])
          (steps ++ [{
            thought := (parseReActResponse jsonParse content).thought
            action := (parseReActResponse jsonParse content).action
            actionInput := (parseReActResponse jsonParse content).actionInput
            observation := missingToolObs ts
              (parseReActResponse jsonParse content).action }]) ctx) := by
  refine ⟨?_, ?_, ?_⟩
  · intro jsonParse response h
    simp [parseReActResponse, matchSection, h]
  · intro llm jsonParse ts n msgs steps ctx content hc hf
    simp [executeAux, hc, hf]
  · intro llm jsonParse ts n msgs steps ctx content hc hnf hl
    simp [executeAux, hc, hnf, hl]

/-- Witness for **C8**: a reply with no `Action:` label parses to
`FINISH`, and a round naming the unknown tool `nothing` with an empty
registry appends the synthesized step and continues. -/
theorem react_missing_action_and_missing_tool_w :
    (parseReActResponse jpW "no labels in this reply").action = "FINISH" ∧
    executeAux llmW jpW [] 1 [] [] {} =
      executeAux llmW jpW [] 0
        ([] ++ [{ role := .assistant, content := cW },
          { role := .user, content := obsPrompt (missingToolObs [] pW.action) }])
        ([] ++ [{ thought := pW.thought
                  action := pW.action
                  actionInput := pW.actionInput
                  observation := missingToolObs [] pW.action }]) {} :=
  ⟨react_missing_action_and_missing_tool.1 jpW "no labels in this reply" (by decide),
   react_missing_action_and_missing_tool.2.2 llmW jpW [] 0 [] [] {} cW rfl (by decide) rfl⟩

/-! ## Placeholder substitution (`WorkflowEngine.resolveString` /
`getNestedValue`) -/

def braceL : Char := Char.ofNat 123

def braceR : Char := Char.ofNat 125

/-- `WorkflowEngine.getNestedValue`: reduce over the dotted path with
optional chaining. -/
def getNestedValue (obj : JSVal) (path : String) : JSVal :=
  ((splitCharsOn '.' path.data).map String.mk).foldl jsIndex obj

/-- The replacement callback of `resolveString`: the trimmed token either
starts with `context.` — then the value of the dotted lookup into the
context object is returned and string-coerced by `String.replace`
(`undefined` coerces to the text `undefined`) — or it reads
`variables[token] || ""`. -/
def tokenRepl (ctx : WorkflowExecutionContext) (varName : String) : String :=
  let trimmed := String.mk (trimChars varName.data)
  if strStartsWith trimmed "context." then
    jsValToString (getNestedValue (ctxToJSVal ctx) (strDropChars trimmed 8))
  else
    jsValToString (jsOr (lookupVar ctx.vars trimmed) (.jstr ""))

/-- The lazy token body of `/\x7b\x7b(.+?)\x7d\x7d/g`: at least one
character up to the nearest close-brace pair; `some (token, rest)` when
the pair exists. -/
def grabToken : List Char → Option (List Char × List Char)
  | [] => none
  | c :: rest =>
      if [braceR, braceR].isPrefixOf rest then some ([c], rest.drop 2)
      else match grabToken rest with
        | some (tok, rem) => some (c :: tok, rem)
        | none => none

lemma grabToken_length : ∀ (xs tok rem : List Char), grabToken xs = some (tok, rem) →
    rem.length + 3 ≤ xs.length := by
  intro xs
  induction xs with
  | nil => intro tok rem h; simp [grabToken] at h
  | cons c rest ih =>
      intro tok rem h
      unfold grabToken at h
      by_cases hp : [braceR, braceR].isPrefixOf rest = true
      · simp only [hp, if_true] at h
        obtain ⟨-, hrem⟩ := Prod.mk.injEq .. ▸ Option.some.injEq .. ▸ h
        have hlen : 2 ≤ rest.length := by
          have := (List.isPrefixOf_iff_prefix.mp hp).length_le
          simpa using this
        subst hrem
        simp [List.length_drop]
        omega
      · simp only [hp, Bool.false_eq_true, if_false] at h
        cases hg : grabToken rest with
        | none => rw [hg] at h; simp at h
        | some pr =>
            obtain ⟨tok', rem'⟩ := pr
            rw [hg] at h
            simp only [Option.some.injEq, Prod.mk.injEq] at h
            obtain ⟨-, hrem⟩ := h
            have := ih tok' rem' hg
            subst hrem
            simp
            omega

/-- The scan of `str.replace(/\x7b\x7b(.+?)\x7d\x7d/g, cb)`: at each
position a full lazy match is replaced and the scan resumes after it,
otherwise the character is copied (replacements are not rescanned).  The
fuel only makes the recursion structural; seeded with the text length it
never runs out, since every step consumes at least one character. -/
def resolveCharsF (ctx : WorkflowExecutionContext) : Nat → List Char → List Char
  | 0, xs => xs
  | _ + 1, [] => []
  | fuel + 1, c :: rest =>
      if c = braceL ∧ [braceL].isPrefixOf rest then
        match grabToken rest.tail with
        | some (tok, rem) =>
            (tokenRepl ctx (String.mk tok)).data ++ resolveCharsF ctx fuel rem
        | none => c :: resolveCharsF ctx fuel rest
      else c :: resolveCharsF ctx fuel rest

/-- `WorkflowEngine.resolveString`. -/
def resolveString (str : String) (ctx : WorkflowExecutionContext) : String :=
  String.mk (resolveCharsF ctx (str.data.length + 1) str.data)

lemma resolveCharsF_nil (ctx : WorkflowExecutionContext) :
    ∀ f, resolveCharsF ctx f [] = [] := by
  intro f; cases f <;> rfl

lemma resolveCharsF_congr (ctx : WorkflowExecutionContext) :
    ∀ (f1 f2 : Nat) (xs : List Char), xs.length ≤ f1 → xs.length ≤ f2 →
      resolveCharsF ctx f1 xs = resolveCharsF ctx f2 xs := by
  intro f1
  induction f1 with
  | zero =>
      intro f2 xs h1 _
      have : xs = [] := List.length_eq_zero.mp (Nat.le_zero.mp h1)
      subst this
      rw [resolveCharsF_nil, resolveCharsF_nil]
  | succ k ih =>
      intro f2 xs h1 h2
      cases xs with
      | nil => rw [resolveCharsF_nil, resolveCharsF_nil]
      | cons c rest =>
          cases f2 with
          | zero => simp at h2
          | succ j =>
              simp only [List.length_cons] at h1 h2
              unfold resolveCharsF
              by_cases hcond : c = braceL ∧ [braceL].isPrefixOf rest
              · simp only [hcond, if_true, and_self]
                cases hg : grabToken rest.tail with
                | none =>
                    dsimp only
                    have hr : rest.length ≤ k := by omega
                    have hr2 : rest.length ≤ j := by omega
                    rw [ih j rest hr hr2]
                | some pr =>
                    obtain ⟨tok, rem⟩ := pr
                    dsimp only
                    have hlen := grabToken_length rest.tail tok rem hg
                    have htail : rest.tail.length ≤ rest.length := by
                      cases rest <;> simp
                    have hr : rem.length ≤ k := by omega
                    have hr2 : rem.length ≤ j := by omega
                    rw [ih j rem hr hr2]
              · simp only [hcond, if_false]
                have hr : rest.length ≤ k := by omega
                have hr2 : rest.length ≤ j := by omega
                rw [ih j rest hr hr2]

/-- Whether a close-brace pair occurs anywhere in the text. -/
def hasClosePair : List Char → Bool
  | [] => false
  | c :: rest => [braceR, braceR].isPrefixOf (c :: rest) || hasClosePair rest

lemma string_eta (s : String) : String.mk s.data = s := rfl

lemma string_mk_append (a : String) (b : List Char) :
    String.mk (a.data ++ b) = a ++ String.mk b := by
  cases a; rfl

lemma isPrefixOf_pair (x y a b : Char) (xs : List Char) :
    [x, y].isPrefixOf (a :: b :: xs) = ((x == a) && (y == b)) := by
  simp [List.isPrefixOf]

lemma closepair_head (t' rest : List Char)
    (h : hasClosePair (t' ++ [braceR]) = false) (hne : t' ≠ []) :
    [braceR, braceR].isPrefixOf (t' ++ ([braceR, braceR] ++ rest)) = false := by
  cases t' with
  | nil => contradiction
  | cons d t'' =>
      cases t'' with
      | nil =>
          simp only [List.cons_append, List.nil_append, isPrefixOf_pair] at h ⊢
          simp only [hasClosePair, isPrefixOf_pair] at h
          simp only [List.isPrefixOf, Bool.and_eq_false_iff] at h ⊢
          rcases Bool.or_eq_false_iff.mp h with ⟨h1, -⟩
          rcases Bool.and_eq_false_iff.mp h1 with h2 | h2
          · exact Or.inl h2
          · simp at h2
      | cons e t''' =>
          simp only [List.cons_append, isPrefixOf_pair] at h ⊢
          simp only [hasClosePair, isPrefixOf_pair] at h
          rcases Bool.or_eq_false_iff.mp h with ⟨h1, -⟩
          exact h1

lemma grabToken_exact : ∀ (t rest : List Char), t ≠ [] →
    hasClosePair (t ++ [braceR]) = false →
    grabToken (t ++ ([braceR, braceR] ++ rest)) = some (t, rest) := by
  intro t
  induction t with
  | nil => intro rest h; intro; contradiction
  | cons c t' ih =>
      intro rest _ hcp
      have hcp' : hasClosePair (t' ++ [braceR]) = false := by
        have heq : hasClosePair ((c :: t') ++ [braceR]) =
            ([braceR, braceR].isPrefixOf ((c :: t') ++ [braceR])
              || hasClosePair (t' ++ [braceR])) := rfl
        rw [heq] at hcp
        exact (Bool.or_eq_false_iff.mp hcp).2
      cases t' with
      | nil =>
          unfold grabToken
          have hp : [braceR, braceR].isPrefixOf ([braceR, braceR] ++ rest) = true := by
            simp [List.isPrefixOf]
          simp [hp]
      | cons d t'' =>
          show grabToken (c :: ((d :: t'') ++ ([braceR, braceR] ++ rest))) = _
          unfold grabToken
          have hp := closepair_head (d :: t'') rest hcp' (by simp)
          rw [if_neg (by rw [hp]; simp)]
          rw [ih rest (by simp) hcp']

lemma resolveCharsF_token_step (ctx : WorkflowExecutionContext) (t rem : List Char) (fuel : Nat)
    (hg : grabToken (t ++ ([braceR, braceR] ++ rem)) = some (t, rem)) :
    resolveCharsF ctx (fuel + 1) (braceL :: braceL :: (t ++ ([braceR, braceR] ++ rem)))
      = (tokenRepl ctx (String.mk t)).data ++ resolveCharsF ctx fuel rem := by
  simp only [resolveCharsF, List.tail_cons]
  rw [if_pos (by simp [List.isPrefixOf])]
  rw [hg]

/-- **C9** counterexample: substituting a `context.` path that does not
exist yields the literal text `undefined` (JavaScript's string coercion
of `undefined`), not the empty string the claim states. -/
theorem resolve_missing_context_path_cx :
    resolveString "\x7b\x7bcontext.missing\x7d\x7d" ({} : WorkflowExecutionContext)
      = "undefined" ∧ ("undefined" : String) ≠ "" :=
  ⟨rfl, by decide⟩

/-- **C9** (amended).  Placeholder substitution replaces each
`\x7b\x7bexpr\x7d\x7d` occurrence (lazy match: `expr` non-empty, up to
the nearest close-brace pair) by the token replacement and continues with
the rest of the string; the trimmed token resolves as follows: a token of
the form `context.<path>` resolves by dotted lookup into the
ExecutionContext and a missing path yields the string `"undefined"` (the
string coercion of `undefined`), not the empty string; any other token
resolves to `variables[token]` when that value is truthy and to the empty
string otherwise. -/
theorem placeholder_substitution :
    (∀ (ctx : WorkflowExecutionContext) (t rest : String),
      t.data ≠ [] → hasClosePair (t.data ++ [braceR]) = false →
      resolveString ("\x7b\x7b" ++ t ++ "\x7d\x7d" ++ rest) ctx
        = tokenRepl ctx t ++ resolveString rest ctx) ∧
    (∀ (ctx : WorkflowExecutionContext) (t trimmed : String),
      trimmed = String.mk (trimChars t.data) →
      strStartsWith trimmed "context." = true →
      getNestedValue (ctxToJSVal ctx) (strDropChars trimmed 8) = .jundefined →
      tokenRepl ctx t = "undefined") ∧
    (∀ (ctx : WorkflowExecutionContext) (t trimmed : String),
      trimmed = String.mk (trimChars t.data) →
      strStartsWith trimmed "context." = false →
      tokenRepl ctx t =
        (if jsTruthy (lookupVar ctx.vars trimmed)
         then jsValToString (lookupVar ctx.vars trimmed) else "")) := by
  refine ⟨?_, ?_, ?_⟩
  · intro ctx t rest hne hcp
    unfold resolveString
    have hdata : ("\x7b\x7b" ++ t ++ "\x7d\x7d" ++ rest).data
        = braceL :: braceL :: (t.data ++ ([braceR, braceR] ++ rest.data)) := by
      simp only [String.data_append]
      show ['\x7b', '\x7b'] ++ t.data ++ ['\x7d', '\x7d'] ++ rest.data = _
      have hL : ('\x7b' : Char) = braceL := by decide
      have hR : ('\x7d' : Char) = braceR := by decide
      rw [hL, hR]
      simp
    rw [hdata]
    have hg := grabToken_exact t.data rest.data hne hcp
    rw [resolveCharsF_token_step ctx t.data rest.data
      ((braceL :: braceL :: (t.data ++ ([braceR, braceR] ++ rest.data))).length) hg]
    rw [resolveCharsF_congr ctx
      ((braceL :: braceL :: (t.data ++ ([braceR, braceR] ++ rest.data))).length)
      (rest.data.length + 1) rest.data (by simp; omega) (by omega)]
    rw [string_eta, string_mk_append]
  · intro ctx t trimmed htr hsw hmiss
    simp only [tokenRepl]
    rw [← htr, hsw]
    simp [hmiss, jsValToString]
  · intro ctx t trimmed htr hsw
    simp only [tokenRepl]
    rw [← htr, hsw]
    simp only [Bool.false_eq_true, if_false, jsOr]
    by_cases hv : jsTruthy (lookupVar ctx.vars trimmed) = true
    · simp [hv]
    · simp only [Bool.not_eq_true] at hv
      simp [hv, jsValToString]

/-- Context with one variable, used by the substitution witness. -/
def ctxW : WorkflowExecutionContext := { vars := [("name", .jstr "Ada")] }

/-- Witness for **C9** (amended): one token occurrence is replaced and
scanning continues; a non-`context.` token reads the variable. -/
theorem placeholder_substitution_w :
    resolveString ("\x7b\x7b" ++ "name" ++ "\x7d\x7d" ++ "!") ctxW
      = tokenRepl ctxW "name" ++ resolveString "!" ctxW ∧
    tokenRepl ctxW "name"
      = (if jsTruthy (lookupVar ctxW.vars (String.mk (trimChars "name".data)))
         then jsValToString (lookupVar ctxW.vars (String.mk (trimChars "name".data))) else "") :=
  ⟨placeholder_substitution.1 ctxW "name" "!" (by decide) (by decide),
   placeholder_substitution.2.2 ctxW "name" (String.mk (trimChars "name".data)) rfl rfl⟩

/-! ## Workflow graph executor (`workflow/workflow-engine.ts`,
class `WorkflowEngine`) -/

/-- `WorkflowEngine.determineNextNode` (its `context` parameter is unused
in the source): a single id is followed (the empty id is falsy and ends
the run); a non-empty branch array selects `next[0]` on a truthy node
result and `next[1]` otherwise, whatever the node's kind. -/
def determineNextNode (node : WorkflowNode) (result : JSVal)
    (_context : WorkflowExecutionContext) : Option String :=
  match node.next with
  | none => none
  | some (.one id) => if id = "" then none else some id
  | some (.branch ids) =>
      if ids.length > 0 then
        if jsTruthy result then ids.get? 0 else ids.get? 1
      else none

/-- `WorkflowEngine.evaluateCondition`: a missing/empty condition is
`false`; otherwise resolve placeholders and `eval` (exceptions ⇒
`false`). -/
def evaluateCondition (node : WorkflowNode) (ctx : WorkflowExecutionContext) : Bool :=
  match node.config.condition with
  | none => false
  | some c =>
      if c = "" then false
      else match jsEvalBool (resolveString c ctx) with
        | some b => b
        | none => false

/-- `WorkflowEngine.evaluateGoalCondition`: like `evaluateCondition`, for
the workflow's goal expression. -/
def evaluateGoalCondition (condition : String) (ctx : WorkflowExecutionContext) : Bool :=
  if condition = "" then false
  else match jsEvalBool (resolveString condition ctx) with
    | some b => b
    | none => false

/-- `WorkflowEngine.executeDataAccess`: `artifact:<agent>` reads a
predecessor artifact, `variable:<name>` reads a context variable, any
other prefix throws. -/
def executeDataAccess (node : WorkflowNode) (ctx : WorkflowExecutionContext) :
    Except String JSVal :=
  match node.config.dataSource with
  | none => .error ("Data source not specified in node " ++ node.id)
  | some ds =>
      if ds = "" then .error ("Data source not specified in node " ++ node.id)
      else if strStartsWith ds "artifact:" then
        .ok (lookupVar ctx.previousArtifacts (strDropChars ds 9))
      else if strStartsWith ds "variable:" then
        .ok (lookupVar ctx.vars (strDropChars ds 9))
      else .error ("Unknown data source: " ++ ds)

/-- `WorkflowEngine.resolveParameters`: string-valued parameters get
placeholder substitution, other values pass through. -/
def resolveParameters (params : List (String × JSVal)) (ctx : WorkflowExecutionContext) :
    List (String × JSVal) :=
  params.map (fun p => match p.2 with
    | .jstr s => (p.1, .jstr (resolveString s ctx))
    | v => (p.1, v))

/-- `WorkflowEngine.executeToolCall`. -/
def executeToolCall (ts : List MTool) (node : WorkflowNode) (ctx : WorkflowExecutionContext) :
    Except String (JSVal × WorkflowExecutionContext) :=
  match node.config.toolName with
  | none => .error ("Tool name not specified in node " ++ node.id)
  | some tn =>
      if tn = "" then .error ("Tool name not specified in node " ++ node.id)
      else match lookupTool ts tn with
        | none => .error ("Tool " ++ tn ++ " not found")
        | some tool =>
            tool.execute (jobjL (resolveParameters node.config.toolParams ctx)) ctx

/-- `WorkflowEngine.executeReAct`: run the ReAct loop on the
placeholder-substituted prompt (default prompt when unset) and return its
`result`, successful or not. -/
def executeReActNode (llm : List LLMMessage → Except String String)
    (jsonParse : String → Option JSVal) (ts : List MTool) (node : WorkflowNode)
    (ctx : WorkflowExecutionContext) : JSVal × WorkflowExecutionContext :=
  let task := match node.config.reactPrompt with
    | some p => if p = "" then "Complete the current task" else p
    | none => "Complete the current task"
  let r := reactExecute llm jsonParse ts defaultMaxIterations (resolveString task ctx) ctx none
  ((r.1.result).getD .jundefined, r.2)

/-- The `for` of `WorkflowEngine.executeLoop`: bounded passes with the
goal condition as early exit, collecting `\x7biteration: i\x7d`
records. -/
def loopIter (goalCondition : String) :
    Nat → Nat → WorkflowExecutionContext → List JSVal →
    List JSVal × WorkflowExecutionContext
  | _, 0, ctx, acc => (acc, ctx)
  | i, rem + 1, ctx, acc =>
      let ctx1 := { ctx with iteration := i }
      if evaluateGoalCondition goalCondition ctx1 then (acc, ctx1)
      else loopIter goalCondition (i + 1) rem ctx1
        (acc ++ [jobjL [("iteration", .jnum i)]])

/-- `WorkflowEngine.executeLoop` (`config.maxIterations || 10`: zero is
falsy). -/
def executeLoopNode (node : WorkflowNode) (goalCondition : String)
    (ctx : WorkflowExecutionContext) : JSVal × WorkflowExecutionContext :=
  let maxIter := match node.config.maxIterations with
    | some n => if n = 0 then 10 else n
    | none => 10
  let (results, ctx2) := loopIter goalCondition 0 maxIter ctx []
  (.jarr (JSList.ofList results), ctx2)

/-- `WorkflowEngine.executeNode`: dispatch on the node kind. -/
def executeNode (llm : List LLMMessage → Except String String)
    (jsonParse : String → Option JSVal) (ts : List MTool) (node : WorkflowNode)
    (ctx : WorkflowExecutionContext) (wf : Workflow) :
    Except String (JSVal × WorkflowExecutionContext) :=
  match node.type with
  | .tool_call => executeToolCall ts node ctx
  | .data_access => (executeDataAccess node ctx).map (fun v => (v, ctx))
  | .react => .ok (executeReActNode llm jsonParse ts node ctx)
  | .condition => .ok (.jbool (evaluateCondition node ctx), ctx)
  | .loop => .ok (executeLoopNode node wf.goalCondition ctx)

/-- The result record of `executeWorkflow`. -/
structure WorkflowExecutionResult where
  success : Bool
  output : JSVal := .jundefined
  error : Option String := none
  context : WorkflowExecutionContext
deriving DecidableEq

/-- The `while` loop of `WorkflowEngine.executeWorkflow` with fuel
(`none` = fuel exhausted): look the current node up (a missing node
throws `NodeNotFound`, caught into a failed result), execute it, record
`\x7bnode, result\x7d` in the history, stop successfully when the goal
condition holds (output `variables.output || result`), otherwise follow
`determineNextNode`; when the current id is absent (or falsy) the run
ends successfully with output `variables.output` — not the last node's
result. -/
def execWfAux (llm : List LLMMessage → Except String String)
    (jsonParse : String → Option JSVal) (ts : List MTool) (wf : Workflow) :
    Nat → Option String → WorkflowExecutionContext → Option WorkflowExecutionResult
  | 0, _, _ => none
  | fuel + 1, currentNodeId, ctx =>
      match currentNodeId with
      | none => some { success := true
                       output := lookupVar ctx.vars "output"
                       context := ctx }
      | some nid =>
          if nid = "" then
            some { success := true
                   output := lookupVar ctx.vars "output"
                   context := ctx }
          else match wf.nodes.find? (fun n => n.id == nid) with
            | none => some { success := false
                             error := some ("Node " ++ nid ++ " not found in workflow")
                             context := ctx }
            | some node =>
                match executeNode llm jsonParse ts node ctx wf with
                | .error e => some { success := false, error := some e, context := ctx }
                | .ok (result, ctx1) =>
                    let ctx2 := { ctx1 with
                      history := ctx1.history ++ [.nodeResult node.id result] }
                    if evaluateGoalCondition wf.goalCondition ctx2 then
                      some { success := true
                             output := jsOr (lookupVar ctx2.vars "output") result
                             context := ctx2 }
                    else
                      execWfAux llm jsonParse ts wf fuel
                        (determineNextNode node result ctx2) ctx2

/-- `WorkflowEngine.executeWorkflow` (the source's normalization of a
partial initial context is subsumed by the total context record). -/
def executeWorkflow (llm : List LLMMessage → Except String String)
    (jsonParse : String → Option JSVal) (ts : List MTool) (fuel : Nat)
    (wf : Workflow) (ctx0 : WorkflowExecutionContext) : Option WorkflowExecutionResult :=
  execWfAux llm jsonParse ts wf fuel (some wf.startNode) ctx0

/-- **C10.** For every workflow node whose `next` field is a non-empty
array, the executor selects `next[0]` when the node's execution result is
truthy and `next[1]` otherwise — branch-pair selection is not restricted
to condition nodes, since `determineNextNode` never consults the node's
kind. -/
theorem branch_pair_selection_any_kind (node : WorkflowNode) (ids : List String)
    (result : JSVal) (ctx : WorkflowExecutionContext)
    (h : node.next = some (.branch ids)) (hne : ids ≠ []) :
    determineNextNode node result ctx
      = if jsTruthy result then ids.get? 0 else ids.get? 1 := by
  unfold determineNextNode
  rw [h]
  dsimp only
  rw [if_pos (List.length_pos.mpr hne)]

/-- A branching `tool_call` (not `condition`) node used by the C10
witness. -/
def branchNodeEx : WorkflowNode :=
  { id := "X", type := .tool_call, next := some (.branch ["C", "D"]) }

/-- Witness for **C10** at a non-condition node with a truthy result. -/
theorem branch_pair_selection_any_kind_w :
    determineNextNode branchNodeEx (.jstr "x") {}
      = if jsTruthy (.jstr "x") then ["C", "D"].get? 0 else ["C", "D"].get? 1 :=
  branch_pair_selection_any_kind branchNodeEx ["C", "D"] (.jstr "x") {} rfl (by decide)

/-- The echo tool of the C6 scenario: returns its resolved parameters and
leaves the context untouched. -/
def echoTool : MTool :=
  { name := "echo", description := "echoes its parameters"
    execute := fun params ctx => .ok (params, ctx) }

def nodeA : WorkflowNode :=
  { id := "A", type := .tool_call
    config := { toolName := some "echo", toolParams := [("msg", .jstr "hi")] }
    next := some (.one "B") }

def nodeB : WorkflowNode :=
  { id := "B", type := .condition
    config := { condition := some "true" }
    next := some (.branch ["C", "D"]) }

def nodeC : WorkflowNode :=
  { id := "C", type := .tool_call
    config := { toolName := some "echo", toolParams := [("who", .jstr "c")] }
    next := none }

def nodeD : WorkflowNode :=
  { id := "D", type := .tool_call
    config := { toolName := some "echo" }
    next := none }

def wfEx : Workflow :=
  { id := "wf1", nodes := [nodeA, nodeB, nodeC, nodeD]
    startNode := "A", goalCondition := "false" }

/-- A model oracle that always fails (never consulted: the scenario has
no `react` node). -/
def llmNone : List LLMMessage → Except String String := fun _ => .error "no model"

/-- The C6 scenario run. -/
def wfRunEx : Option WorkflowExecutionResult :=
  executeWorkflow llmNone jpW [echoTool] 10 wfEx {}

/-- The node ids recorded in a result's history. -/
def historyNodes (r : WorkflowExecutionResult) : List String :=
  r.context.history.map (fun h => match h with
    | .nodeResult n _ => n
    | .reactStep _ => "react")

/-- **C6** counterexample: the scenario run visits A, then B taking the
true branch, then C, and stops at C — but the returned output is
`context.variables.output`, which no node wrote (`undefined`), and not
C's result, which only sits in the final history entry. -/
theorem workflow_returns_context_output_cx :
    wfRunEx.map historyNodes = some ["A", "B", "C"] ∧
    wfRunEx.map (fun r => r.output) = some JSVal.jundefined ∧
    wfRunEx.map (fun r => r.context.history.getLast?)
      = some (some (.nodeResult "C" (jobjL [("who", .jstr "c")]))) ∧
    JSVal.jundefined ≠ jobjL [("who", .jstr "c")] :=
  ⟨rfl, rfl, rfl, by decide⟩

/-- **C6** (amended).  Executing the workflow A(tool_call echo) →
B(condition "true") → [C, D] under goal condition "false" visits node A,
then node B taking the true branch, then node C; with `C.next` absent the
run stops at C and returns successfully — the returned output being the
context's `variables.output` (undefined here, since no node wrote it),
while C's result is recorded as the final history entry. -/
theorem workflow_scenario_path :
    wfRunEx = some
      { success := true
        output := .jundefined
        context :=
          { vars := []
            iteration := 0
            history := [.nodeResult "A" (jobjL [("msg", .jstr "hi")]),
                        .nodeResult "B" (.jbool true),
                        .nodeResult "C" (jobjL [("who", .jstr "c")])]
            userMessages := []
            previousArtifacts := [] } } := rfl

/-! ## Dependency scheduler (`index.ts`: `/api/workflow/start` handler and
`setupA2AMonitor`)

The server holds three nullable agent instances, the connection list set
over HTTP (runtime values are plain strings), and the shared execution
state.  The persistence store for agent configurations is modelled as an
association list. -/

/-- An `AgentConnection` (`cfrom`/`cto` stand for the source's
`from`/`to`; at runtime these are the agent-type strings sent over
HTTP). -/
structure AgentConnection where
  cfrom : String
  cto : String
deriving DecidableEq

structure ExecutionState where
  currentNodeId : Option String := none
  currentAgentType : Option String := none
  mode : ExecMode := .automatic
  blockedAgents : List String := []
  completedNodes : List String := []
  artifactApprovals : List (String × Bool) := []
deriving DecidableEq

structure OrchestratorState where
  plannerAgent : Option BaseAgentState := none
  artistAgent : Option BaseAgentState := none
  developerAgent : Option BaseAgentState := none
  agentConnections : List AgentConnection := []
  executionState : ExecutionState := {}
  storedConfigs : List (String × AgentConfig) := []
deriving DecidableEq

/-- `getAgentByType` (`default` branch yields `null`). -/
def getAgentByType (s : OrchestratorState) (t : String) : Option BaseAgentState :=
  if t = "planner" then s.plannerAgent
  else if t = "artist" then s.artistAgent
  else if t = "developer" then s.developerAgent
  else none

/-- Store an updated agent instance back into its slot. -/
def setAgent (s : OrchestratorState) (t : String) (a : BaseAgentState) : OrchestratorState :=
  if t = "planner" then { s with plannerAgent := some a }
  else if t = "artist" then { s with artistAgent := some a }
  else if t = "developer" then { s with developerAgent := some a }
  else s

/-- `persistenceManager.readAgentConfig`. -/
def readAgentConfig (s : OrchestratorState) (t : String) : Option AgentConfig :=
  (s.storedConfigs.find? (fun p => p.1 == t)).map (fun p => p.2)

/-- The `for` over `nextAgents` in the monitor handler: for each
candidate, collect its dependencies from the connection list and start it
when they are all in `completedNodes` and it is currently idle.
`agent.start` is modelled by its synchronous prefix `startAgent` (the run
loop continues asynchronously and never returns the status to `idle`
without an explicit `stop`); a thrown start error is caught by the
handler's outer `try`, aborting the remaining candidates. -/
def startNextAgents : List String → OrchestratorState → OrchestratorState
  | [], s => s
  | nxt :: rest, s =>
      let dependencies :=
        (s.agentConnections.filter (fun c => c.cto == nxt)).map (fun c => c.cfrom)
      if dependencies.all (fun d => s.executionState.completedNodes.contains d) then
        match getAgentByType s nxt with
        | some ag =>
            if ag.status = .IDLE then
              let s1 := { s with executionState :=
                { s.executionState with currentAgentType := some nxt } }
              match startAgent (readAgentConfig s1 nxt) [] (some s1.executionState.mode) ag with
              | .ok (ag2, _) => startNextAgents rest (setAgent s1 nxt ag2)
              | .error _ => s1
            else startNextAgents rest s
        | none => startNextAgents rest s
      else startNextAgents rest s

/-- `setupA2AMonitor`'s handler for an observed `agent_complete` message:
record the completion (idempotently) and try to start every agent
depending on the completed one. -/
def handleAgentComplete (completedAgentType : String) (s : OrchestratorState) :
    OrchestratorState :=
  let s1 :=
    if s.executionState.completedNodes.contains completedAgentType then s
    else { s with executionState := { s.executionState with
      completedNodes := s.executionState.completedNodes ++ [completedAgentType] } }
  let nextAgents :=
    (s1.agentConnections.filter (fun c => c.cfrom == completedAgentType)).map (fun c => c.cto)
  startNextAgents nextAgents s1

/-- The hard-coded agent universe of the start handler. -/
def allAgents : List String := ["planner", "artist", "developer"]

/-- The `for` over `startingAgents` in the start handler: start each agent
that is initialized (a missing instance is only logged); a start error
propagates to the handler's catch, aborting the rest. -/
def startWfLoop (mode : ExecMode) : List String → OrchestratorState →
    OrchestratorState × Option String
  | [], s => (s, none)
  | agentType :: rest, s =>
      match getAgentByType s agentType with
      | some ag =>
          match startAgent (readAgentConfig s agentType) [] (some mode) ag with
          | .ok (ag2, _) => startWfLoop mode rest (setAgent s agentType ag2)
          | .error e => (s, some e)
      | none => startWfLoop mode rest s

/-- The `POST /api/workflow/start` handler: reset the execution state,
compute the agents with no incoming connection, report `No starting
agents found` (HTTP 400) when there are none — starting zero agents —
otherwise start exactly those and report them. -/
def startWorkflow (mode : ExecMode) (s : OrchestratorState) :
    OrchestratorState × Except String (List String) :=
  let s1 := { s with executionState :=
    { currentNodeId := none, currentAgentType := none, mode := mode,
      blockedAgents := [], completedNodes := [], artifactApprovals := [] } }
  let agentsWithDependencies := s1.agentConnections.map (fun c => c.cto)
  let startingAgents := allAgents.filter (fun a => !(agentsWithDependencies.contains a))
  if startingAgents.isEmpty then
    (s1, .error "No starting agents found")
  else
    match startWfLoop mode startingAgents s1 with
    | (s2, some e) => (s2, .error e)
    | (s2, none) =>
        let s3 := { s2 with executionState :=
          { s2.executionState with currentAgentType := startingAgents.head? } }
        (s3, .ok startingAgents)

/-- A freshly constructed agent instance (status `idle`). -/
def freshAgent (t : AgentType) : BaseAgentState := { agentType := t }

/-- The observed start counter of the agent registered under a name
(0 when no instance exists). -/
def startCountByName (s : OrchestratorState) (t : String) : Nat :=
  match getAgentByType s t with
  | some ag => ag.startCount
  | none => 0

/-- The observed status of the agent registered under a name. -/
def statusByName (s : OrchestratorState) (t : String) : Option AgentStatus :=
  (getAgentByType s t).map (fun ag => ag.status)

/-- A server state with exactly the agents `P` and `Q` initialized (idle,
scenario configured) and the single dependency edge `P → Q`. -/
def orchTwo (P Q : AgentType) : OrchestratorState :=
  { plannerAgent :=
      if P = .planner || Q = .planner then some (freshAgent .planner) else none
    artistAgent :=
      if P = .artist || Q = .artist then some (freshAgent .artist) else none
    developerAgent :=
      if P = .developer || Q = .developer then some (freshAgent .developer) else none
    agentConnections := [{ cfrom := P.str, cto := Q.str }]
    storedConfigs := [("planner", cfgEx), ("artist", cfgEx), ("developer", cfgEx)] }

/-- The state after starting the workflow on the two-agent graph. -/
def c2s1 (P Q : AgentType) : OrchestratorState :=
  (startWorkflow .automatic (orchTwo P Q)).1

/-- … after the monitor observes `P`'s `agent_complete` once … -/
def c2s2 (P Q : AgentType) : OrchestratorState :=
  handleAgentComplete P.str (c2s1 P Q)

/-- … and after it observes the same completion a second time. -/
def c2s3 (P Q : AgentType) : OrchestratorState :=
  handleAgentComplete P.str (c2s2 P Q)

/-- **C2.** For a two-agent dependency graph `P → Q`, starting the
workflow starts only `P` (every other agent name keeps a start count of
0); when the scheduler's subscriber observes `P`'s `agent_complete`
event, `Q` is started exactly once (it transitions to `running`), and
re-observing the same `agent_complete` event does not start `Q` a second
time, because the scheduler checks that a candidate's current status is
`idle` before starting it. -/
theorem scheduler_two_agent_idempotent (P Q : AgentType) (hne : P ≠ Q) :
    startCountByName (c2s1 P Q) P.str = 1 ∧
    (∀ a ∈ allAgents, a ≠ P.str → startCountByName (c2s1 P Q) a = 0) ∧
    startCountByName (c2s2 P Q) Q.str = 1 ∧
    statusByName (c2s2 P Q) Q.str = some .RUNNING ∧
    startCountByName (c2s3 P Q) Q.str = 1 := by
  cases P <;> cases Q <;> first
    | exact absurd rfl hne
    | decide

/-- Witness for **C2** at `P = planner`, `Q = artist`. -/
theorem scheduler_two_agent_idempotent_w :
    startCountByName (c2s1 .planner .artist) "planner" = 1 ∧
    (∀ a ∈ allAgents, a ≠ "planner" → startCountByName (c2s1 .planner .artist) a = 0) ∧
    startCountByName (c2s2 .planner .artist) "artist" = 1 ∧
    statusByName (c2s2 .planner .artist) "artist" = some .RUNNING ∧
    startCountByName (c2s3 .planner .artist) "artist" = 1 :=
  scheduler_two_agent_idempotent .planner .artist (by decide)

/-- A server state with all three agents initialized (idle, scenario
configured) and an arbitrary connection list. -/
def orchInit (conns : List AgentConnection) : OrchestratorState :=
  { plannerAgent := some (freshAgent .planner)
    artistAgent := some (freshAgent .artist)
    developerAgent := some (freshAgent .developer)
    agentConnections := conns
    storedConfigs := [("planner", cfgEx), ("artist", cfgEx), ("developer", cfgEx)] }

/-- **C5.**  When every agent has at least one incoming connection (e.g. a
cycle), `startWorkflow` reports the configuration error (`No starting
agents found`, HTTP 400) and starts zero agents; and in general — with
all agents initialized — exactly the agents with no incoming connection
are started (start count 1, all others 0). -/
theorem startWorkflow_source_agents (conns : List AgentConnection) :
    (((conns.map (fun c => c.cto)).contains "planner" = true ∧
      (conns.map (fun c => c.cto)).contains "artist" = true ∧
      (conns.map (fun c => c.cto)).contains "developer" = true) →
      (startWorkflow .automatic (orchInit conns)).2 = .error "No starting agents found" ∧
      startCountByName (startWorkflow .automatic (orchInit conns)).1 "planner" = 0 ∧
      startCountByName (startWorkflow .automatic (orchInit conns)).1 "artist" = 0 ∧
      startCountByName (startWorkflow .automatic (orchInit conns)).1 "developer" = 0) ∧
    (∀ a ∈ allAgents,
      startCountByName (startWorkflow .automatic (orchInit conns)).1 a
        = if (conns.map (fun c => c.cto)).contains a then 0 else 1) := by
  by_cases hp : ∃ x ∈ conns, x.cto = "planner" <;>
  by_cases hq : ∃ x ∈ conns, x.cto = "artist" <;>
  by_cases hd : ∃ x ∈ conns, x.cto = "developer" <;>
  (constructor
   · rintro ⟨h1, h2, h3⟩
     simp at h1 h2 h3
     first
       | exact absurd h1 hp
       | exact absurd h2 hq
       | exact absurd h3 hd
       | refine ⟨?_, ?_, ?_, ?_⟩ <;>
           simp [startWorkflow, orchInit, allAgents, startWfLoop, getAgentByType,
             setAgent, readAgentConfig, startAgent, hasScenario, cfgEx, freshAgent,
             startCountByName, hp, hq, hd]
   · intro a ha
     simp only [allAgents, List.mem_cons, List.not_mem_nil, or_false] at ha
     rcases ha with rfl | rfl | rfl <;>
       simp [startWorkflow, orchInit, allAgents, startWfLoop, getAgentByType,
         setAgent, readAgentConfig, startAgent, hasScenario, cfgEx, freshAgent,
         startCountByName, hp, hq, hd])

/-- Witness for **C5**: with the cycle planner → artist → developer →
planner every agent has a predecessor, so the start reports the
configuration error and no agent is started; the general part applied to
the single edge planner → artist starts exactly planner and developer. -/
theorem startWorkflow_source_agents_w :
    ((startWorkflow .automatic (orchInit
        [{ cfrom := "planner", cto := "artist" },
         { cfrom := "artist", cto := "developer" },
         { cfrom := "developer", cto := "planner" }])).2
      = .error "No starting agents found" ∧
     startCountByName (startWorkflow .automatic (orchInit
        [{ cfrom := "planner", cto := "artist" },
         { cfrom := "artist", cto := "developer" },
         { cfrom := "developer", cto := "planner" }])).1 "planner" = 0 ∧
     startCountByName (startWorkflow .automatic (orchInit
        [{ cfrom := "planner", cto := "artist" },
         { cfrom := "artist", cto := "developer" },
         { cfrom := "developer", cto := "planner" }])).1 "artist" = 0 ∧
     startCountByName (startWorkflow .automatic (orchInit
        [{ cfrom := "planner", cto := "artist" },
         { cfrom := "artist", cto := "developer" },
         { cfrom := "developer", cto := "planner" }])).1 "developer" = 0) ∧
    startCountByName (startWorkflow .automatic (orchInit
        [{ cfrom := "planner", cto := "artist" }])).1 "artist"
      = if ([{ cfrom := "planner", cto := "artist" }].map
            (fun c => AgentConnection.cto c)).contains "artist" then 0 else 1 :=
  ⟨(startWorkflow_source_agents
      [{ cfrom := "planner", cto := "artist" },
       { cfrom := "artist", cto := "developer" },
       { cfrom := "developer", cto := "planner" }]).1
      ⟨by decide, by decide, by decide⟩,
   (startWorkflow_source_agents [{ cfrom := "planner", cto := "artist" }]).2
      "artist" (by decide)⟩

end GameAgents
